import Mathlib

/-!
Verification of the Homework4 crypto-analytics frontend.

The development shallowly embeds the JavaScript frontend code:

* `mergeSeries` and its helpers model the comparison merge built in
  `handleCompare` on the compare page: dates of both series are collected
  into a `Set` in insertion order, turned into an array, sorted, and for
  each date an entry is pushed whose per-symbol value is
  `find(bar at date)?.close || null`.
* Dates are modelled as naturals: the code carries ISO `YYYY-MM-DD`
  strings whose lexicographic sort order (the one used by the JS
  `Array.prototype.sort` with no comparator) coincides with chronological
  order, so a linearly ordered date type is the faithful abstraction.
* Prices are modelled as rationals; JS truthiness of a number (`x || null`)
  is `orNull`.
-/

/-- One bar of a compare-endpoint series: the merge reads only `date` and
`close` of each element of `compareResult.coinN.data`. -/
structure Bar where
  date : Nat
  close : ℚ
deriving DecidableEq, Repr

/-- A symbol's time series as delivered to `handleCompare`. -/
abbrev Series := List Bar

/-- JS `x || null` applied to an optional number: `undefined` and the falsy
number `0` both collapse to `null`; any other number passes through. -/
def orNull (x : Option ℚ) : Option ℚ :=
  match x with
  | none => none
  | some c => if c = 0 then none else some c

/-- One element pushed onto `merged`: `val1` is the value stored under the
first symbol's computed key, `val2` under the second's. -/
structure MergedEntry where
  date : Nat
  val1 : Option ℚ
  val2 : Option ℚ
deriving DecidableEq, Repr

/-- Model of `dates.add d` on the JS `Set`: first occurrence kept, insertion
order preserved. -/
def insertDate (ds : List Nat) (d : Nat) : List Nat :=
  if d ∈ ds then ds else ds ++ [d]

/-- Folding a whole series into the date `Set`, as the two `forEach` loops do. -/
def addDates (ds : List Nat) (s : Series) : List Nat :=
  s.foldl (fun acc b => insertDate acc b.date) ds

/-- The contents of the `dates` set after both `forEach` loops. -/
def datesUnion (s1 s2 : Series) : List Nat :=
  addDates (addDates [] s1) s2

/-- Model of `Array.from(dates).sort()`: the collected dates in ascending
order. -/
def sortedDates (s1 s2 : Series) : List Nat :=
  (datesUnion s1 s2).insertionSort (· ≤ ·)

/-- The entry pushed for one date of the sorted union:
`d1 = data.find(d => d.date === date)` and the stored value is
`d1?.close || null`. -/
def entryAt (s1 s2 : Series) (d : Nat) : MergedEntry :=
  { date := d
    val1 := orNull ((s1.find? (fun b => b.date == d)).map Bar.close)
    val2 := orNull ((s2.find? (fun b => b.date == d)).map Bar.close) }

/-- The full `merged` array built by `handleCompare`. -/
def mergeSeries (s1 s2 : Series) : List MergedEntry :=
  (sortedDates s1 s2).map (entryAt s1 s2)

theorem mem_insertDate (ds : List Nat) (d x : Nat) :
    x ∈ insertDate ds d ↔ x ∈ ds ∨ x = d := by
  unfold insertDate
  split
  · constructor
    · exact Or.inl
    · rintro (h | rfl)
      · exact h
      · assumption
  · simp [List.mem_append]

theorem nodup_insertDate (ds : List Nat) (d : Nat) (h : ds.Nodup) :
    (insertDate ds d).Nodup := by
  unfold insertDate
  split
  · exact h
  · simpa [List.nodup_append] using ⟨h, by assumption⟩

theorem mem_addDates (s : Series) : ∀ (ds : List Nat) (x : Nat),
    x ∈ addDates ds s ↔ x ∈ ds ∨ x ∈ s.map Bar.date := by
  induction s with
  | nil => simp [addDates]
  | cons b t ih =>
      intro ds x
      show x ∈ addDates (insertDate ds b.date) t ↔ _
      rw [ih]
      rw [mem_insertDate]
      simp only [List.map_cons, List.mem_cons]
      tauto

theorem nodup_addDates (s : Series) : ∀ ds : List Nat, ds.Nodup →
    (addDates ds s).Nodup := by
  induction s with
  | nil => intro ds h; exact h
  | cons b t ih =>
      intro ds h
      exact ih _ (nodup_insertDate ds b.date h)

theorem mem_datesUnion (s1 s2 : Series) (x : Nat) :
    x ∈ datesUnion s1 s2 ↔ x ∈ s1.map Bar.date ∨ x ∈ s2.map Bar.date := by
  unfold datesUnion
  rw [mem_addDates, mem_addDates]
  simp

theorem nodup_datesUnion (s1 s2 : Series) : (datesUnion s1 s2).Nodup :=
  nodup_addDates s2 _ (nodup_addDates s1 [] List.nodup_nil)

theorem sortedDates_perm (s1 s2 : Series) :
    (sortedDates s1 s2).Perm (datesUnion s1 s2) :=
  (datesUnion s1 s2).perm_insertionSort (· ≤ ·)

theorem mem_sortedDates (s1 s2 : Series) (x : Nat) :
    x ∈ sortedDates s1 s2 ↔ x ∈ s1.map Bar.date ∨ x ∈ s2.map Bar.date := by
  rw [(sortedDates_perm s1 s2).mem_iff]
  exact mem_datesUnion s1 s2 x

theorem nodup_sortedDates (s1 s2 : Series) : (sortedDates s1 s2).Nodup :=
  (sortedDates_perm s1 s2).nodup_iff.mpr (nodup_datesUnion s1 s2)

theorem sorted_sortedDates (s1 s2 : Series) :
    (sortedDates s1 s2).Sorted (· ≤ ·) :=
  List.sorted_insertionSort (· ≤ ·) (datesUnion s1 s2)

theorem datesUnion_perm (s1 s2 : Series) :
    (datesUnion s1 s2).Perm (datesUnion s2 s1) := by
  rw [List.perm_ext_iff_of_nodup (nodup_datesUnion s1 s2) (nodup_datesUnion s2 s1)]
  intro x
  rw [mem_datesUnion, mem_datesUnion]
  tauto

theorem sortedDates_comm (s1 s2 : Series) :
    sortedDates s1 s2 = sortedDates s2 s1 := by
  have hp : (sortedDates s1 s2).Perm (sortedDates s2 s1) :=
    ((sortedDates_perm s1 s2).trans (datesUnion_perm s1 s2)).trans
      (sortedDates_perm s2 s1).symm
  exact List.eq_of_perm_of_sorted hp (sorted_sortedDates s1 s2)
    (sorted_sortedDates s2 s1)

theorem merge_map_date (s1 s2 : Series) :
    (mergeSeries s1 s2).map MergedEntry.date = sortedDates s1 s2 := by
  unfold mergeSeries
  rw [List.map_map]
  show List.map id _ = _
  exact List.map_id _

theorem find?_eq_some_of_nodup_dates (s : Series) (b : Bar) :
    (s.map Bar.date).Nodup → b ∈ s →
    s.find? (fun x => x.date == b.date) = some b := by
  induction s with
  | nil => intro _ h; cases h
  | cons a t ih =>
      intro hnd hmem
      rw [List.map_cons, List.nodup_cons] at hnd
      rcases List.mem_cons.mp hmem with rfl | hbt
      · simp [List.find?_cons_of_pos]
      · have hne : a.date ≠ b.date := by
          intro hEq
          exact hnd.1 (hEq ▸ List.mem_map_of_mem Bar.date hbt)
        rw [List.find?_cons_of_neg _ (by simpa using hne)]
        exact ih hnd.2 hbt

/-- The spec scenario's first series: bars on days 1, 2, 3. -/
def exA : Series := [⟨1, 10⟩, ⟨2, 12⟩, ⟨3, 11⟩]

/-- The spec scenario's second series: bars on days 2, 3, 4. -/
def exB : Series := [⟨2, 20⟩, ⟨3, 21⟩, ⟨4, 22⟩]

example : (mergeSeries exA exB).map MergedEntry.date = [1, 2, 3, 4] := by decide

example : mergeSeries exA exB =
    [⟨1, some 10, none⟩, ⟨2, some 12, some 20⟩,
     ⟨3, some 11, some 21⟩, ⟨4, none, some 22⟩] := by decide

theorem merge_val1_at (s1 s2 : Series) (b : Bar)
    (h1 : (s1.map Bar.date).Nodup) (hb : b ∈ s1) (hc : b.close ≠ 0) :
    ∀ e ∈ mergeSeries s1 s2, e.date = b.date → e.val1 = some b.close := by
  intro e he hdate
  rcases List.mem_map.mp he with ⟨d, _, rfl⟩
  have hd : d = b.date := hdate
  subst hd
  show orNull ((s1.find? (fun x => x.date == b.date)).map Bar.close) = some b.close
  rw [find?_eq_some_of_nodup_dates s1 b h1 hb]
  simp [orNull, hc]

theorem merge_val2_at (s1 s2 : Series) (b : Bar)
    (h2 : (s2.map Bar.date).Nodup) (hb : b ∈ s2) (hc : b.close ≠ 0) :
    ∀ e ∈ mergeSeries s1 s2, e.date = b.date → e.val2 = some b.close := by
  intro e he hdate
  rcases List.mem_map.mp he with ⟨d, _, rfl⟩
  have hd : d = b.date := hdate
  subst hd
  show orNull ((s2.find? (fun x => x.date == b.date)).map Bar.close) = some b.close
  rw [find?_eq_some_of_nodup_dates s2 b h2 hb]
  simp [orNull, hc]

theorem entry_mem_merge (s1 s2 : Series) (d : Nat)
    (hd : d ∈ s1.map Bar.date ∨ d ∈ s2.map Bar.date) :
    entryAt s1 s2 d ∈ mergeSeries s1 s2 :=
  List.mem_map_of_mem (entryAt s1 s2) ((mem_sortedDates s1 s2 d).mpr hd)

/-- C1: the comparison merge in `handleCompare` yields exactly one entry per
date of the union of the two series' date sets, and at a date where a symbol
has no bar that symbol's slot of the entry is the explicit absence marker
`none` (JS `null`), never a number. -/
theorem c1_merge_union_and_absence (s1 s2 : Series) :
    ((mergeSeries s1 s2).map MergedEntry.date).Nodup ∧
    (∀ d : Nat, d ∈ (mergeSeries s1 s2).map MergedEntry.date ↔
      (d ∈ s1.map Bar.date ∨ d ∈ s2.map Bar.date)) ∧
    ∀ e ∈ mergeSeries s1 s2,
      (e.date ∉ s1.map Bar.date → e.val1 = none) ∧
      (e.date ∉ s2.map Bar.date → e.val2 = none) := by
  refine ⟨?_, ?_, ?_⟩
  · rw [merge_map_date]
    exact nodup_sortedDates s1 s2
  · intro d
    rw [merge_map_date]
    exact mem_sortedDates s1 s2 d
  · intro e he
    rcases List.mem_map.mp he with ⟨d, _, rfl⟩
    constructor
    · intro h
      have hnone : s1.find? (fun b => b.date == d) = none := by
        rw [List.find?_eq_none]
        intro x hx
        simp only [beq_iff_eq]
        intro hEq
        exact h (List.mem_map.mpr ⟨x, hx, hEq⟩)
      show orNull ((s1.find? (fun b => b.date == d)).map Bar.close) = none
      rw [hnone]
      rfl
    · intro h
      have hnone : s2.find? (fun b => b.date == d) = none := by
        rw [List.find?_eq_none]
        intro x hx
        simp only [beq_iff_eq]
        intro hEq
        exact h (List.mem_map.mpr ⟨x, hx, hEq⟩)
      show orNull ((s2.find? (fun b => b.date == d)).map Bar.close) = none
      rw [hnone]
      rfl

/-- Witness for C1 at the spec scenario: bars on days 1,2,3 against bars on
days 2,3,4 merge to entries on exactly the dates 1,2,3,4, with an absence for
the first symbol on day 4 and for the second on day 1. -/
theorem c1_witness :
    ((mergeSeries exA exB).map MergedEntry.date = [1, 2, 3, 4]) ∧
    (∀ e ∈ mergeSeries exA exB,
      (e.date ∉ exA.map Bar.date → e.val1 = none) ∧
      (e.date ∉ exB.map Bar.date → e.val2 = none)) ∧
    (entryAt exA exB 4).val1 = none ∧ (entryAt exA exB 1).val2 = none :=
  ⟨by decide,
   (c1_merge_union_and_absence exA exB).2.2,
   ((c1_merge_union_and_absence exA exB).2.2 (entryAt exA exB 4)
      (by decide)).1 (by decide),
   ((c1_merge_union_and_absence exA exB).2.2 (entryAt exA exB 1)
      (by decide)).2 (by decide)⟩

/-- C2: at every date of the merged comparison series where a symbol does
have a bar, that symbol's slot holds exactly that bar's close price (under
the data-model precondition that closes are positive and each series has one
bar per day); a present close is never replaced by the absence marker or any
other value. -/
theorem c2_present_close_kept (s1 s2 : Series)
    (h1 : (s1.map Bar.date).Nodup) (h2 : (s2.map Bar.date).Nodup)
    (hpos1 : ∀ b ∈ s1, 0 < b.close) (hpos2 : ∀ b ∈ s2, 0 < b.close) :
    (∀ b ∈ s1, (∃ e ∈ mergeSeries s1 s2, e.date = b.date) ∧
      ∀ e ∈ mergeSeries s1 s2, e.date = b.date → e.val1 = some b.close) ∧
    (∀ b ∈ s2, (∃ e ∈ mergeSeries s1 s2, e.date = b.date) ∧
      ∀ e ∈ mergeSeries s1 s2, e.date = b.date → e.val2 = some b.close) := by
  constructor
  · intro b hb
    refine ⟨⟨entryAt s1 s2 b.date, ?_, rfl⟩, ?_⟩
    · exact entry_mem_merge s1 s2 b.date (Or.inl (List.mem_map_of_mem Bar.date hb))
    · exact merge_val1_at s1 s2 b h1 hb (hpos1 b hb).ne'
  · intro b hb
    refine ⟨⟨entryAt s1 s2 b.date, ?_, rfl⟩, ?_⟩
    · exact entry_mem_merge s1 s2 b.date (Or.inr (List.mem_map_of_mem Bar.date hb))
    · exact merge_val2_at s1 s2 b h2 hb (hpos2 b hb).ne'

/-- Witness for C2 on the concrete scenario series: every present close of
either input reappears unchanged in the merged entries. -/
theorem c2_witness :
    ((exA.map Bar.date).Nodup ∧ (exB.map Bar.date).Nodup ∧
      (∀ b ∈ exA, 0 < b.close) ∧ ∀ b ∈ exB, 0 < b.close) ∧
    (∀ b ∈ exA, (∃ e ∈ mergeSeries exA exB, e.date = b.date) ∧
      ∀ e ∈ mergeSeries exA exB, e.date = b.date → e.val1 = some b.close) ∧
    (∀ b ∈ exB, (∃ e ∈ mergeSeries exA exB, e.date = b.date) ∧
      ∀ e ∈ mergeSeries exA exB, e.date = b.date → e.val2 = some b.close) :=
  ⟨⟨by decide, by decide, by decide, by decide⟩,
   c2_present_close_kept exA exB (by decide) (by decide) (by decide) (by decide)⟩

/-- C3: the comparison merge is symmetric in its two inputs: merging in the
opposite order produces entries on the same dates carrying the same values,
with the two symbols' slots exchanged. -/
theorem c3_merge_symm (s1 s2 : Series) :
    mergeSeries s1 s2 =
      (mergeSeries s2 s1).map (fun e => ⟨e.date, e.val2, e.val1⟩) := by
  unfold mergeSeries
  rw [List.map_map, sortedDates_comm]
  rfl

theorem sortedDates_sorted_lt (s1 s2 : Series) :
    (sortedDates s1 s2).Sorted (· < ·) := by
  have h1 := sorted_sortedDates s1 s2
  have h2 := nodup_sortedDates s1 s2
  exact (List.Pairwise.and h1 h2).imp fun h => lt_of_le_of_ne h.1 h.2

/-- C4: the merged comparison series is in strictly ascending date order, and
each date of the union of the two input date sets appears exactly once. -/
theorem c4_merge_sorted_unique (s1 s2 : Series) :
    ((mergeSeries s1 s2).map MergedEntry.date).Sorted (· < ·) ∧
    ∀ d : Nat, ((mergeSeries s1 s2).map MergedEntry.date).count d =
      if d ∈ s1.map Bar.date ∨ d ∈ s2.map Bar.date then 1 else 0 := by
  constructor
  · rw [merge_map_date]
    exact sortedDates_sorted_lt s1 s2
  · intro d
    rw [merge_map_date]
    split
    · exact List.count_eq_one_of_mem (nodup_sortedDates s1 s2)
        ((mem_sortedDates s1 s2 d).mpr (by assumption))
    · exact List.count_eq_zero_of_not_mem
        (fun hmem => by
          have := (mem_sortedDates s1 s2 d).mp hmem
          contradiction)

/-- The payload of the gateway's `/compare` response as `handleCompare`
consumes it: both symbols' series arrive in one structure
(`compareResult.coin1`, `compareResult.coin2`). -/
structure CompareResponse where
  sym1 : String
  sym2 : String
  series1 : Series
  series2 : Series
deriving DecidableEq

/-- The merged structure stored with `setData`. -/
structure CompareData where
  coin1 : String
  coin2 : String
  data : List MergedEntry
deriving DecidableEq

/-- Detail payloads from `/coins/ID`; only their presence matters here. -/
abbrev Details := String

/-- The component state touched by `handleCompare` after the guards. -/
structure CompareState where
  data : Option CompareData
  details1 : Option Details
  details2 : Option Details
deriving DecidableEq

/-- JS `Promise.all` on three promises, modelled on settled outcomes: it
resolves with the triple of values when all three resolve and rejects when
any one rejects. -/
def promiseAll3 {α β γ : Type} (r1 : Except String α) (r2 : Except String β)
    (r3 : Except String γ) : Except String (α × β × γ) :=
  match r1, r2, r3 with
  | .ok a, .ok b, .ok c => .ok (a, b, c)
  | .error e, _, _ => .error e
  | .ok _, .error e, _ => .error e
  | .ok _, .ok _, .error e => .error e

/-- The structure `setData` receives: both legs' symbols and the merge of
both legs' series. -/
def mkCompareData (cr : CompareResponse) : CompareData :=
  { coin1 := cr.sym1, coin2 := cr.sym2, data := mergeSeries cr.series1 cr.series2 }

/-- The body of `handleCompare` after its guards: `await Promise.all` of the
compare fetch and the two detail fetches; on success the merge is built from
both legs and stored, on rejection the `catch` branch alerts and leaves the
page data untouched. -/
def handleCompareRun (rc : Except String CompareResponse)
    (r1 r2 : Except String Details) (st : CompareState) : CompareState :=
  match promiseAll3 rc r1 r2 with
  | .error _ => st
  | .ok (cr, d1, d2) =>
      { data := some (mkCompareData cr), details1 := some d1, details2 := some d2 }

/-- C5: a comparison response is never built from one leg alone: the state
after `handleCompare` either keeps the previous page data (some fetch failed)
or holds a merge built from both series of a fully resolved compare
response; there is no outcome exposing a single leg. -/
theorem c5_no_partial_compare (rc : Except String CompareResponse)
    (r1 r2 : Except String Details) (st : CompareState) :
    (handleCompareRun rc r1 r2 st).data = st.data ∨
    ∃ cr d1 d2, rc = Except.ok cr ∧ r1 = Except.ok d1 ∧ r2 = Except.ok d2 ∧
      (handleCompareRun rc r1 r2 st).data =
        some ⟨cr.sym1, cr.sym2, mergeSeries cr.series1 cr.series2⟩ := by
  cases rc with
  | error e => left; rfl
  | ok cr =>
      cases r1 with
      | error e => left; rfl
      | ok d1 =>
          cases r2 with
          | error e => left; rfl
          | ok d2 =>
              right
              exact ⟨cr, d1, d2, rfl, rfl, rfl, rfl⟩

/-- The prediction request URL issued by `CoinDetail`: the template literal
appends the fixed query `lookback=30&epochs=15`. -/
def predictUrl (apiUrl coinId : String) : String :=
  apiUrl ++ "/coins/" ++ coinId ++ "/predict?lookback=30&epochs=15"

/-- The technical request URL issued by `CoinDetail` with the current
`timeframe` state. -/
def technicalUrl (apiUrl coinId timeframe : String) : String :=
  apiUrl ++ "/coins/" ++ coinId ++ "/technical?timeframe=" ++ timeframe

/-- The initial value of the `timeframe` state hook (`useState('1m')`). -/
def initialTimeframe : String := "1m"

/-- Splitting a character sequence at every occurrence of a separator. -/
def splitOnChar (sep : Char) : List Char → List (List Char)
  | [] => [[]]
  | c :: rest =>
      match splitOnChar sep rest, decide (c = sep) with
      | r, true => [] :: r
      | [], false => [[c]]
      | h :: t, false => (c :: h) :: t

/-- Splitting a query string into its key-value pairs. -/
def queryPairs (q : String) : List (String × String) :=
  (splitOnChar ('&') q.data).map fun p =>
    match splitOnChar ('=') p with
    | [k, v] => (⟨k⟩, ⟨v⟩)
    | _ => (⟨p⟩, "")

/-- C6: the coin-detail analytics requests carry exactly the documented
defaults: the prediction URL's query is `lookback=30&epochs=15`, and with the
initial (unchanged) timeframe state the technical URL's query is
`timeframe=1m`. -/
theorem c6_analytics_request_defaults (apiUrl coinId : String) :
    (predictUrl apiUrl coinId =
      apiUrl ++ "/coins/" ++ coinId ++ ("/predict" ++ "?" ++ "lookback=30&epochs=15")) ∧
    queryPairs ("lookback=30&epochs=15") = [("lookback", "30"), ("epochs", "15")] ∧
    (technicalUrl apiUrl coinId initialTimeframe =
      apiUrl ++ "/coins/" ++ coinId ++ ("/technical" ++ "?" ++ "timeframe=1m")) ∧
    queryPairs ("timeframe=1m") = [("timeframe", "1m")] := by
  refine ⟨?_, by decide, ?_, by decide⟩
  · show apiUrl ++ "/coins/" ++ coinId ++ "/predict?lookback=30&epochs=15" = _
    congr 1
  · show apiUrl ++ "/coins/" ++ coinId ++ "/technical?timeframe=" ++ initialTimeframe = _
    rw [String.append_assoc (apiUrl ++ "/coins/" ++ coinId) ("/technical?timeframe=")
      initialTimeframe]
    congr 1

/-- Symbol strings for the case round-trip are modelled as sequences of
Unicode code points; `lowerCode` and `upperCode` are the simple case
mappings that `toLowerCase`/`toUpperCase` apply on the ASCII range the data
model draws symbols from. -/
def lowerCode (c : Nat) : Nat := if 65 ≤ c ∧ c ≤ 90 then c + 32 else c

/-- Simple case mapping of `toUpperCase` on the ASCII range. -/
def upperCode (c : Nat) : Nat := if 97 ≤ c ∧ c ≤ 122 then c - 32 else c

/-- The route parameter `CryptoCard` embeds into the link target
`/coin/ID`, namely `coin.symbol.toLowerCase()`. -/
def cardRouteSymbol (sym : List Nat) : List Nat := sym.map lowerCode

/-- The identifier computed by `CoinDetail` from the route parameter:
`params.id.toUpperCase()`; every API request of the page interpolates it. -/
def detailCoinId (p : List Nat) : List Nat := p.map upperCode

/-- Code points without a distinct lowercase form beyond simple case
mapping, as the claim quantifies: ASCII uppercase letters and digits. -/
def upperOrDigit (c : Nat) : Prop := (65 ≤ c ∧ c ≤ 90) ∨ (48 ≤ c ∧ c ≤ 57)

instance (c : Nat) : Decidable (upperOrDigit c) := by
  unfold upperOrDigit
  infer_instance

/-- C7: lowercasing a symbol of uppercase letters and digits for the card
link and uppercasing the route parameter on the detail page recovers the
original symbol, and the identifier the detail page's requests carry contains
no lowercase letter. -/
theorem c7_symbol_case_roundtrip (sym : List Nat)
    (h : ∀ c ∈ sym, upperOrDigit c) :
    detailCoinId (cardRouteSymbol sym) = sym ∧
    ∀ c ∈ detailCoinId (cardRouteSymbol sym), ¬(97 ≤ c ∧ c ≤ 122) := by
  have hrt : detailCoinId (cardRouteSymbol sym) = sym := by
    unfold detailCoinId cardRouteSymbol
    rw [List.map_map]
    have hid : ∀ c ∈ sym, (upperCode ∘ lowerCode) c = c := by
      intro c hc
      have := h c hc
      unfold upperOrDigit at this
      show upperCode (lowerCode c) = c
      unfold lowerCode upperCode
      split_ifs <;> omega
    calc sym.map (upperCode ∘ lowerCode) = sym.map id :=
          List.map_congr_left hid
      _ = sym := List.map_id sym
  refine ⟨hrt, ?_⟩
  rw [hrt]
  intro c hc
  have := h c hc
  unfold upperOrDigit at this
  omega

/-- Witness for C7 at the symbol `BTC` (code points 66, 84, 67). -/
theorem c7_witness :
    (∀ c ∈ [66, 84, 67], upperOrDigit c) ∧
    detailCoinId (cardRouteSymbol [66, 84, 67]) = [66, 84, 67] ∧
    ∀ c ∈ detailCoinId (cardRouteSymbol [66, 84, 67]), ¬(97 ≤ c ∧ c ≤ 122) :=
  ⟨by decide, (c7_symbol_case_roundtrip [66, 84, 67] (by decide)).1,
   (c7_symbol_case_roundtrip [66, 84, 67] (by decide)).2⟩

/-- Rendering outcome of a chart component: the `No data` placeholder or a
chart over prepared data. -/
inductive ChartView (α : Type) where
  | noData : ChartView α
  | chart : α → ChartView α
deriving DecidableEq

/-- One point of a sparkline series; the line reads its `price` key. -/
structure PricePoint where
  price : ℚ
deriving DecidableEq

/-- Model of `Sparkline`: `if (!data || data.length === 0)` renders the placeholder,
otherwise the line chart over the given data. A missing (`null`/`undefined`)
array is `none`. -/
def sparklineRender (data : Option (List PricePoint)) :
    ChartView (List PricePoint) :=
  match data with
  | none => ChartView.noData
  | some l => if l.length = 0 then ChartView.noData else ChartView.chart l

/-- One OHLCV bar as `CandlestickChart` reads it; `opn` models the `open`
field (a reserved word in Lean). -/
structure OhlcBar where
  date : Nat
  opn : ℚ
  high : ℚ
  low : ℚ
  close : ℚ
deriving DecidableEq

/-- One element of `candleData`, with derived fill colour and candle body
bounds, exactly as the `data.map` in `CandlestickChart` builds it. -/
structure Candle where
  date : Nat
  opn : ℚ
  close : ℚ
  high : ℚ
  low : ℚ
  fill : String
  candleHigh : ℚ
  candleLow : ℚ
deriving DecidableEq

/-- The per-bar transformation of the `candleData` map. -/
def toCandle (d : OhlcBar) : Candle :=
  { date := d.date, opn := d.opn, close := d.close, high := d.high,
    low := d.low,
    fill := if d.opn ≤ d.close then ("#4ade80") else ("#f87171"),
    candleHigh := max d.opn d.close, candleLow := min d.opn d.close }

/-- Model of `CandlestickChart`: `if (!data || data.length === 0)` renders the
placeholder; otherwise `candleData` is computed and charted. -/
def candlestickRender (data : Option (List OhlcBar)) :
    ChartView (List Candle) :=
  match data with
  | none => ChartView.noData
  | some l =>
      if l.length = 0 then ChartView.noData
      else ChartView.chart (l.map toCandle)

/-- C8: both chart components are total on degenerate input: a missing or
empty data sequence renders the `No data` placeholder, and bar fields are
read (via `toCandle`) only when a nonempty sequence is present. -/
theorem c8_degenerate_chart_total :
    sparklineRender none = ChartView.noData ∧
    sparklineRender (some []) = ChartView.noData ∧
    candlestickRender none = ChartView.noData ∧
    candlestickRender (some []) = ChartView.noData ∧
    (∀ data : Option (List OhlcBar), candlestickRender data = ChartView.noData ∨
      ∃ l, data = some l ∧ 0 < l.length ∧
        candlestickRender data = ChartView.chart (l.map toCandle)) ∧
    ∀ data : Option (List PricePoint), sparklineRender data = ChartView.noData ∨
      ∃ l, data = some l ∧ 0 < l.length ∧
        sparklineRender data = ChartView.chart l := by
  refine ⟨rfl, rfl, rfl, rfl, ?_, ?_⟩
  · intro data
    cases data with
    | none => left; rfl
    | some l =>
        by_cases h : l.length = 0
        · left
          simp [candlestickRender, h]
        · right
          exact ⟨l, rfl, Nat.pos_of_ne_zero h, by simp [candlestickRender, h]⟩
  · intro data
    cases data with
    | none => left; rfl
    | some l =>
        by_cases h : l.length = 0
        · left
          simp [sparklineRender, h]
        · right
          exact ⟨l, rfl, Nat.pos_of_ne_zero h, by simp [sparklineRender, h]⟩

/-- One element of the `/coins` listing as the dashboard sorts it; fields
the comparators do not touch are omitted. Absent (`null`/`undefined`)
numeric fields are `none`, defaulted by `|| 0` in the comparators. -/
structure Coin where
  symbol : String
  currentPrice : Option ℚ
  priceChange24h : Option ℚ
  volume24h : Option ℚ
  volatility : Option ℚ
deriving DecidableEq

/-- The numeric result of `a.symbol.localeCompare(b.symbol)` on the default
locale for plain ticker strings: sign of the lexicographic comparison. -/
def localeCompareNum (a b : String) : ℚ :=
  if a < b then -1 else if b < a then 1 else 0

/-- The `switch (sortBy)` comparator of the dashboard's `sortedCoins`. -/
def dashCompare (sortBy : String) (a b : Coin) : ℚ :=
  match sortBy with
  | "symbol" => localeCompareNum a.symbol b.symbol
  | "price" => b.currentPrice.getD 0 - a.currentPrice.getD 0
  | "change" => b.priceChange24h.getD 0 - a.priceChange24h.getD 0
  | "volume" => b.volume24h.getD 0 - a.volume24h.getD 0
  | "volatility" => b.volatility.getD 0 - a.volatility.getD 0
  | _ => 0

/-- Model of `[...coins].sort(comparator)`: the fetched list is copied, then the copy
is sorted; an element precedes another when the comparator is nonpositive. -/
def sortedCoins (sortBy : String) (coins : List Coin) : List Coin :=
  coins.insertionSort (fun a b => dashCompare sortBy a b ≤ 0)

/-- The top-movers comparator
`Math.abs(b.priceChange24h || 0) - Math.abs(a.priceChange24h || 0)`. -/
def moverCompare (a b : Coin) : ℚ :=
  |b.priceChange24h.getD 0| - |a.priceChange24h.getD 0|

/-- Model of `[...coins].sort(moverCompare).slice(0, 5)`. -/
def topMovers (coins : List Coin) : List Coin :=
  (coins.insertionSort (fun a b => moverCompare a b ≤ 0)).take 5

/-- What the dashboard renders from the fetched `coins` state: the state
itself (untouched), the sorted copy for the grid, the top movers, and the
`Showing N cryptocurrencies` count taken from `coins.length`. -/
def dashboardView (sortBy : String) (coins : List Coin) :
    List Coin × List Coin × List Coin × Nat :=
  (coins, sortedCoins sortBy coins, topMovers coins, coins.length)

/-- C9: sorting and the top-movers selection never disturb the fetched list:
the rendered state is the original list, the grid is a permutation of it
(computed on a copy) of identical length for every sort key, the top movers
are at most five elements all drawn from the list, and the displayed count is
the fetched list's length. -/
theorem c9_dashboard_no_mutation (sortBy : String) (coins : List Coin) :
    (dashboardView sortBy coins).1 = coins ∧
    (sortedCoins sortBy coins).Perm coins ∧
    (sortedCoins sortBy coins).length = coins.length ∧
    (topMovers coins).length ≤ 5 ∧
    (∀ c ∈ topMovers coins, c ∈ coins) ∧
    (dashboardView sortBy coins).2.2.2 = coins.length := by
  have hperm : (sortedCoins sortBy coins).Perm coins :=
    coins.perm_insertionSort (fun a b => dashCompare sortBy a b ≤ 0)
  have hmperm : (coins.insertionSort (fun a b => moverCompare a b ≤ 0)).Perm coins :=
    coins.perm_insertionSort (fun a b => moverCompare a b ≤ 0)
  refine ⟨rfl, hperm, hperm.length_eq, ?_, ?_, rfl⟩
  · calc (topMovers coins).length
        = min 5 (coins.insertionSort (fun a b => moverCompare a b ≤ 0)).length :=
          List.length_take 5 _
      _ ≤ 5 := min_le_left 5 _
  · intro c hc
    exact hmperm.mem_iff.mp (List.mem_of_mem_take hc)

/-- Witness for C9 on a concrete two-coin list sorted by price. -/
theorem c9_witness :
    (sortedCoins ("price") [⟨"BTC", some 2, some 1, none, none⟩,
        ⟨"ETH", some 3, some (-4), none, none⟩]).Perm
      [⟨"BTC", some 2, some 1, none, none⟩,
        ⟨"ETH", some 3, some (-4), none, none⟩] ∧
    (topMovers [⟨"BTC", some 2, some 1, none, none⟩,
        ⟨"ETH", some 3, some (-4), none, none⟩]).length ≤ 5 ∧
    ∀ c ∈ topMovers [⟨"BTC", some 2, some 1, none, none⟩,
        ⟨"ETH", some 3, some (-4), none, none⟩],
      c ∈ [⟨"BTC", some 2, some 1, none, none⟩,
        ⟨"ETH", some 3, some (-4), none, none⟩] :=
  ⟨(c9_dashboard_no_mutation ("price") _).2.1,
   (c9_dashboard_no_mutation ("price") _).2.2.2.1,
   (c9_dashboard_no_mutation ("price") _).2.2.2.2.1⟩

/-- The three possible courses of `handleCompare` on entry: the two alert
early-returns and the fetch path. -/
inductive CompareStep where
  | alertBoth : CompareStep
  | alertSame : CompareStep
  | fetch : String → String → CompareStep
deriving DecidableEq

/-- The guard clauses of `handleCompare`: `if (!coin1 || !coin2)` alert
(an empty string is the falsy select value), then `if (coin1 === coin2)`
alert, else proceed to fetch both coins. -/
def compareGuard (coin1 coin2 : String) : CompareStep :=
  if coin1 = "" ∨ coin2 = "" then CompareStep.alertBoth
  else if coin1 = coin2 then CompareStep.alertSame
  else CompareStep.fetch coin1 coin2

/-- The whole of `handleCompare`: the guards run first; only the fetch path
touches the network and the component state. The boolean records whether a
comparison request was issued. -/
def handleCompareFull (coin1 coin2 : String)
    (rc : Except String CompareResponse) (r1 r2 : Except String Details)
    (st : CompareState) : CompareState × Bool :=
  match compareGuard coin1 coin2 with
  | CompareStep.alertBoth => (st, false)
  | CompareStep.alertSame => (st, false)
  | CompareStep.fetch _ _ => (handleCompareRun rc r1 r2 st, true)

/-- C10: `handleCompare` issues a comparison request exactly when two
distinct nonempty selections are present; otherwise it alerts, performs no
fetch and leaves the component state unchanged. -/
theorem c10_guard_iff_fetch (coin1 coin2 : String)
    (rc : Except String CompareResponse) (r1 r2 : Except String Details)
    (st : CompareState) :
    ((handleCompareFull coin1 coin2 rc r1 r2 st).2 = true ↔
      coin1 ≠ "" ∧ coin2 ≠ "" ∧ coin1 ≠ coin2) ∧
    ((handleCompareFull coin1 coin2 rc r1 r2 st).2 = false →
      (handleCompareFull coin1 coin2 rc r1 r2 st).1 = st) := by
  unfold handleCompareFull compareGuard
  by_cases h1 : coin1 = "" ∨ coin2 = ""
  · rw [if_pos h1]
    constructor
    · simp only [Bool.false_eq_true, false_iff]
      tauto
    · intro _
      rfl
  · rw [if_neg h1]
    by_cases h2 : coin1 = coin2
    · rw [if_pos h2]
      constructor
      · simp only [Bool.false_eq_true, false_iff]
        tauto
      · intro _
        rfl
    · rw [if_neg h2]
      constructor
      · simp only [true_iff]
        exact ⟨fun h => h1 (Or.inl h), fun h => h1 (Or.inr h), h2⟩
      · intro h
        cases h

/-- Witness for C10: distinct nonempty selections issue the request; an empty
first selection alerts and leaves the state unchanged. -/
theorem c10_witness :
    ((handleCompareFull ("BTC") ("ETH") (Except.error ("boom"))
        (Except.error ("boom")) (Except.error ("boom")) ⟨none, none, none⟩).2
      = true) ∧
    (handleCompareFull ("") ("ETH") (Except.error ("boom"))
        (Except.error ("boom")) (Except.error ("boom")) ⟨none, none, none⟩).1
      = ⟨none, none, none⟩ :=
  ⟨(c10_guard_iff_fetch ("BTC") ("ETH") (Except.error ("boom"))
      (Except.error ("boom")) (Except.error ("boom")) ⟨none, none, none⟩).1.mpr
      (by decide),
   (c10_guard_iff_fetch ("") ("ETH") (Except.error ("boom"))
      (Except.error ("boom")) (Except.error ("boom")) ⟨none, none, none⟩).2
      (by decide)⟩
